import Mathlib

/-!
Verification of the GroupAudioChat server core (server.cpp / core.h) against
its natural-language specification.

The C++ data plane is shallowly embedded:

* A reliable byte stream is a `List Nat` of bytes (each morally `< 256`).
* `sendFrame` / `recvFrame` (core.h) become pure functions on byte lists;
  `recvFrame` also threads the caller's output buffer, since the C++ version
  mutates `std::vector<char>& out`.
* The mixer (`MixerThread`, server.cpp) becomes a function from the drained
  inbox (a list of frames, each a byte list) to an optional output frame;
  `none` models the undefined behaviour of the out-of-bounds reads the source
  performs when an input frame is shorter than the canonical 3840 bytes.
* The per-client send queue with its backpressure counter becomes a small
  state machine; `RemoveClient` becomes a state transformer; the
  mixer-fanout/RemoveClient race becomes an explicit interleaving relation.
-/

set_option maxRecDepth 2000

namespace GroupAudio

/-! ## Frame codec (src/core/core.h) -/

/-- Canonical audio frame size: `#define AUDIO_BUFFER_SIZE 3840` (core.h). -/
def AUDIO_BUFFER_SIZE : Nat := 3840

/-- Send-queue capacity: `#define MAX_QUEUE_FRAMES 50` (core.h). -/
def MAX_QUEUE_FRAMES : Nat := 50

/-- Big-endian encoding of a 32-bit length, as produced by `htonl(len)` in
`sendFrame` (core.h line 104): four bytes, most significant first. -/
def be32enc (n : Nat) : List Nat :=
  [n / 2 ^ 24 % 256, n / 2 ^ 16 % 256, n / 2 ^ 8 % 256, n % 256]

/-- Big-endian decoding of a 4-byte length, as done by `ntohl(nlen)` in
`recvFrame` (core.h line 127). -/
def be32dec (bs : List Nat) : Nat :=
  ((bs.getD 0 0 % 256 * 256 + bs.getD 1 0 % 256) * 256 + bs.getD 2 0 % 256) * 256
    + bs.getD 3 0 % 256

/-- `sendFrame(s, data, len)` (core.h lines 101-109): emits the 4-byte
big-endian length, then the first `len` payload bytes, onto the stream. -/
def sendFrame (data : List Nat) (len : Nat) : List Nat :=
  be32enc len ++ data.take len

/-- `out.resize(len)` (core.h line 133): keeps the first `min len out.length`
old bytes and value-initialises (zero) the rest. -/
def resizeBuf (out : List Nat) (len : Nat) : List Nat :=
  out.take len ++ List.replicate (len - out.length) 0

/-- `recvFrame(s, out)` (core.h lines 120-135) on a stream modelled as the
exact byte sequence the peer sent before closing.  Returns
`(success, out buffer after the call, unconsumed rest of the stream)`:

1. read 4 header bytes (`recvAll`); fewer available means the connection
   died mid-header, everything available was consumed;
2. decode the length, reject `len == 0 || len > 1u << 24` before touching
   the buffer or the payload;
3. `out.resize(len)` and then read exactly `len` payload bytes; if the
   stream ends first, `recvAll` has already overwritten the received prefix
   of the resized buffer. -/
def recvFrame (stream : List Nat) (out : List Nat) : Bool × List Nat × List Nat :=
  if stream.length < 4 then (false, out, [])
  else
    let len := be32dec (stream.take 4)
    let rest := stream.drop 4
    if len = 0 ∨ 2 ^ 24 < len then (false, out, rest)
    else
      let buf := resizeBuf out len
      if rest.length < len then (false, rest ++ buf.drop rest.length, [])
      else (true, rest.take len, rest.drop len)

theorem be32dec_be32enc (n : Nat) (h : n < 2 ^ 32) : be32dec (be32enc n) = n := by
  simp only [be32enc, be32dec, List.getD_cons_zero, List.getD_cons_succ]
  omega

theorem length_be32enc (n : Nat) : (be32enc n).length = 4 := rfl

theorem take4_enc_append (L : Nat) (rest : List Nat) :
    (be32enc L ++ rest).take 4 = be32enc L := by
  rw [show (4 : Nat) = (be32enc L).length from (length_be32enc L).symm, List.take_left]

theorem drop4_enc_append (L : Nat) (rest : List Nat) :
    (be32enc L ++ rest).drop 4 = rest := by
  rw [show (4 : Nat) = (be32enc L).length from (length_be32enc L).symm, List.drop_left]

theorem length_resizeBuf (out : List Nat) (len : Nat) :
    (resizeBuf out len).length = len := by
  simp [resizeBuf]
  omega

/-- C2: decoding a stream that starts with an encoded frame recovers exactly
the payload, for any payload length in `1 .. 2^24`, leaving the rest of the
stream unconsumed and ignoring the previous contents of the output buffer. -/
theorem recvFrame_sendFrame (payload rest out : List Nat)
    (h1 : 1 ≤ payload.length) (h2 : payload.length ≤ 2 ^ 24) :
    recvFrame (sendFrame payload payload.length ++ rest) out
      = (true, payload, rest) := by
  have htake : payload.take payload.length = payload := List.take_length payload
  have hlen : (sendFrame payload payload.length ++ rest).length
      = 4 + payload.length + rest.length := by
    simp [sendFrame, length_be32enc, htake]
    omega
  have hdec : be32dec (be32enc payload.length) = payload.length :=
    be32dec_be32enc _ (by omega)
  have htake4 : (sendFrame payload payload.length ++ rest).take 4
      = be32enc payload.length := by
    simp [sendFrame, htake, List.append_assoc]
    rw [List.take_append_of_le_length (by simp [length_be32enc])]
    simp [length_be32enc]
  have hdrop4 : (sendFrame payload payload.length ++ rest).drop 4
      = payload ++ rest := by
    simp [sendFrame, htake, List.append_assoc]
    rw [List.drop_append_of_le_length (by simp [length_be32enc])]
    simp [length_be32enc]
  unfold recvFrame
  rw [if_neg (by omega), htake4, hdrop4, hdec]
  rw [if_neg (by omega)]
  have hrlen : (payload ++ rest).length = payload.length + rest.length := by simp
  rw [if_neg (by omega)]
  simp [htake]

/-- Witness for C2 at the concrete payload `[7]` with trailing bytes `[9]`. -/
theorem recvFrame_sendFrame_witness :
    recvFrame (sendFrame [7] (List.length [7]) ++ [9]) [5, 5]
      = (true, [7], [9]) :=
  recvFrame_sendFrame [7] [9] [5, 5] (by decide) (by decide)

/-- C6: `recvFrame` reads a 4-byte big-endian length `L` and rejects exactly
`L = 0` or `L > 16 MiB`, consuming no payload bytes and leaving the caller's
buffer untouched on rejection; any `L` with `1 ≤ L ≤ 2^24` (in particular
`L = 2^24` itself) passes the check and, with enough payload available, the
read succeeds. -/
theorem recvFrame_length_check (L : Nat) (rest out : List Nat) (hL : L < 2 ^ 32) :
    ((L = 0 ∨ 2 ^ 24 < L) → recvFrame (be32enc L ++ rest) out = (false, out, rest)) ∧
    (1 ≤ L → L ≤ 2 ^ 24 → L ≤ rest.length →
      recvFrame (be32enc L ++ rest) out = (true, rest.take L, rest.drop L)) := by
  have hlen : (be32enc L ++ rest).length = 4 + rest.length := by
    simp [length_be32enc]
  have hdec := be32dec_be32enc L hL
  constructor
  · intro hrej
    unfold recvFrame
    rw [if_neg (by omega), take4_enc_append, drop4_enc_append, hdec, if_pos hrej]
  · intro h1 h2 h3
    unfold recvFrame
    rw [if_neg (by omega), take4_enc_append, drop4_enc_append, hdec,
      if_neg (by omega), if_neg (by omega)]

/-- Witness for C6: the boundary length `2^24 + 1` is rejected with no payload
consumed, while `2^24` itself is accepted. -/
theorem recvFrame_length_check_witness :
    recvFrame (be32enc (2 ^ 24 + 1) ++ [5]) [] = (false, [], [5]) ∧
    recvFrame (be32enc (2 ^ 24) ++ List.replicate (2 ^ 24) 0) []
      = (true, List.replicate (2 ^ 24) 0, []) := by
  constructor
  · exact (recvFrame_length_check (2 ^ 24 + 1) [5] [] (by norm_num)).1
      (Or.inr (by norm_num))
  · have h := (recvFrame_length_check (2 ^ 24) (List.replicate (2 ^ 24) 0) []
      (by norm_num)).2 (by norm_num) (le_refl _) (by rw [List.length_replicate])
    rw [List.take_replicate, List.drop_replicate, Nat.min_self, Nat.sub_self,
      List.replicate_zero] at h
    exact h

/-- C10: when the 4-byte prefix parses to a valid length `L` but the stream
dies before delivering all `L` payload bytes, `recvFrame` fails *after*
having resized the caller's buffer: the buffer it hands back has length `L`
(the received prefix followed by the tail of the resized buffer), not its
previous contents. -/
theorem recvFrame_not_atomic (L : Nat) (payload out : List Nat)
    (h1 : 1 ≤ L) (h2 : L ≤ 2 ^ 24) (h3 : payload.length < L) :
    recvFrame (be32enc L ++ payload) out
      = (false, payload ++ (resizeBuf out L).drop payload.length, []) ∧
    (payload ++ (resizeBuf out L).drop payload.length).length = L := by
  have hlen : (be32enc L ++ payload).length = 4 + payload.length := by
    simp [length_be32enc]
  have hdec := be32dec_be32enc L (by omega)
  have hblen := length_resizeBuf out L
  constructor
  · unfold recvFrame
    rw [if_neg (by omega), take4_enc_append, drop4_enc_append, hdec,
      if_neg (by omega), if_pos h3]
  · simp [hblen]
    omega

/-- Witness for C10: length prefix 2, one payload byte, old buffer `[9,9,9]`. -/
theorem recvFrame_not_atomic_witness :
    recvFrame (be32enc 2 ++ [1]) [9, 9, 9]
      = (false, [1] ++ (resizeBuf [9, 9, 9] 2).drop 1, []) ∧
    ([1] ++ (resizeBuf [9, 9, 9] 2).drop 1).length = 2 :=
  recvFrame_not_atomic 2 [1] [9, 9, 9] (by decide) (by decide) (by decide)

/-! ## Mixer (server.cpp, `MixerThread`, lines 194-254)

One mix phase of `MixerThread`: a zeroed 3840-byte buffer, then for each
drained inbox frame and each byte offset `i = 0, 2, ..., 3838` the 16-bit
sample at `&mixed[i]` is replaced by the clamped sum with the sample at
`&f.data[i]`.  Each 2-byte pair of the buffer is updated independently, so
the buffer is modelled as a function from pair index (`i / 2`) to the
signed 16-bit value it holds, serialised back to bytes at the end.  The
source indexes `f.data[i]` for all `i < 3840` without any bounds check, so
a tick whose inbox holds a frame shorter than 3840 bytes reads out of
bounds (undefined behaviour); `mixTick` returns `none` for such inboxes. -/

/-- Inner-loop pair count: `FRAME_SIZE` bytes visited two at a time. -/
def numSamplePairs : Nat := AUDIO_BUFFER_SIZE / 2

/-- Reading a little-endian signed 16-bit sample from two bytes, as the
`short*` cast in the mixer does. -/
def toInt16 (lo hi : Nat) : Int :=
  let u := lo % 256 + 256 * (hi % 256)
  if u < 32768 then (u : Int) else (u : Int) - 65536

/-- Storing a signed 16-bit value back as two little-endian bytes. -/
def int16ToBytes (v : Int) : List Nat :=
  let u := (v % 65536).toNat
  [u % 256, u / 256]

/-- The sample of frame `f` at pair index `j`: bytes `2*j` and `2*j+1`,
little-endian signed (`short* src = (short*)&f.data[i]` with `i = 2*j`). -/
def sampleVal (f : List Nat) (j : Nat) : Int :=
  toInt16 (f.getD (2 * j) 0) (f.getD (2 * j + 1) 0)

/-- `int s = *dst + *src;` followed by the two clamping branches
(server.cpp lines 221-227). -/
def satAdd (a b : Int) : Int :=
  let s := a + b
  if 32767 < s then 32767 else if s < -32768 then -32768 else s

/-- Folding one inbox frame into the mix buffer (the inner `for` loop). -/
def mixStepFrame (acc : Nat → Int) (f : List Nat) : Nat → Int :=
  fun j => satAdd (acc j) (sampleVal f j)

/-- Folding the whole drained inbox over the zeroed buffer
(`std::vector<char> mixed(FRAME_SIZE, 0)` then the outer `for`). -/
def mixAccum (frames : List (List Nat)) : Nat → Int :=
  frames.foldl mixStepFrame (fun _ => 0)

/-- The final contents of the 3840-byte `mixed` buffer. -/
def serializeMix (m : Nat → Int) : List Nat :=
  ((List.range numSamplePairs).map fun j => int16ToBytes (m j)).flatten

/-- The source dereferences bytes `0 .. 3839` of every inbox frame; the
tick is well defined only when every frame has at least 3840 bytes. -/
def framesInBounds (frames : List (List Nat)) : Bool :=
  frames.all fun f => decide (AUDIO_BUFFER_SIZE ≤ f.length)

/-- One mix phase of `MixerThread` on the drained inbox: `none` models the
out-of-bounds reads performed when some frame is shorter than 3840 bytes. -/
def mixTick (frames : List (List Nat)) : Option (List Nat) :=
  if framesInBounds frames then some (serializeMix (mixAccum frames)) else none

theorem satAdd_range (a b : Int) : -32768 ≤ satAdd a b ∧ satAdd a b ≤ 32767 := by
  simp only [satAdd]
  split_ifs <;> omega

theorem satAdd_comm (a b : Int) : satAdd a b = satAdd b a := by
  simp only [satAdd]
  rw [Int.add_comm]

theorem satAdd_zero_left (x : Int) (h1 : -32768 ≤ x) (h2 : x ≤ 32767) :
    satAdd 0 x = x := by
  simp only [satAdd]
  split_ifs <;> omega

theorem satAdd_of_gt (a b : Int) (h : 32767 < a + b) : satAdd a b = 32767 := by
  simp only [satAdd]
  rw [if_pos h]

theorem satAdd_of_lt (a b : Int) (h : a + b < -32768) : satAdd a b = -32768 := by
  simp only [satAdd]
  split_ifs <;> omega

theorem toInt16_range (lo hi : Nat) :
    -32768 ≤ toInt16 lo hi ∧ toInt16 lo hi ≤ 32767 := by
  simp only [toInt16]
  have h1 : lo % 256 < 256 := Nat.mod_lt _ (by norm_num)
  have h2 : hi % 256 < 256 := Nat.mod_lt _ (by norm_num)
  split_ifs <;> omega

theorem sampleVal_range (f : List Nat) (j : Nat) :
    -32768 ≤ sampleVal f j ∧ sampleVal f j ≤ 32767 :=
  toInt16_range _ _

theorem length_int16ToBytes (v : Int) : (int16ToBytes v).length = 2 := rfl

theorem toInt16_int16ToBytes (v : Int) (h1 : -32768 ≤ v) (h2 : v ≤ 32767) :
    toInt16 ((int16ToBytes v).getD 0 0) ((int16ToBytes v).getD 1 0) = v := by
  simp only [int16ToBytes, toInt16, List.getD_cons_zero, List.getD_cons_succ]
  have hnn : 0 ≤ v % 65536 := Int.emod_nonneg v (by norm_num)
  have hlt : v % 65536 < 65536 := Int.emod_lt_of_pos v (by norm_num)
  have hcases : v % 65536 = v ∨ v % 65536 = v + 65536 := by omega
  have htn : ((v % 65536).toNat : Int) = v % 65536 := Int.toNat_of_nonneg hnn
  split_ifs <;> omega

theorem mixAccum_apply (frames : List (List Nat)) (acc : Nat → Int) (j : Nat) :
    (frames.foldl mixStepFrame acc) j
      = frames.foldl (fun a f => satAdd a (sampleVal f j)) (acc j) := by
  induction frames generalizing acc with
  | nil => rfl
  | cons f fs ih => exact ih (mixStepFrame acc f)

theorem foldl_satAdd_range (frames : List (List Nat)) (j : Nat) (a : Int)
    (h1 : -32768 ≤ a) (h2 : a ≤ 32767) :
    -32768 ≤ frames.foldl (fun a f => satAdd a (sampleVal f j)) a ∧
      frames.foldl (fun a f => satAdd a (sampleVal f j)) a ≤ 32767 := by
  induction frames generalizing a with
  | nil => exact ⟨h1, h2⟩
  | cons f fs ih =>
      exact ih _ (satAdd_range _ _).1 (satAdd_range _ _).2

theorem mixAccum_range (frames : List (List Nat)) (j : Nat) :
    -32768 ≤ mixAccum frames j ∧ mixAccum frames j ≤ 32767 := by
  rw [mixAccum, mixAccum_apply]
  exact foldl_satAdd_range frames j 0 (by norm_num) (by norm_num)

theorem flatten_pair_get? (L : List (List Nat)) (j k : Nat) (l : List Nat)
    (hL : ∀ x ∈ L, x.length = 2) (hj : L[j]? = some l) (hk : k < 2) :
    L.flatten[2 * j + k]? = l[k]? := by
  induction L generalizing j with
  | nil => simp at hj
  | cons x xs ih =>
      have hx : x.length = 2 := hL x (by simp)
      cases j with
      | zero =>
          rw [List.getElem?_cons_zero, Option.some.injEq] at hj
          rw [List.flatten_cons, List.getElem?_append_left (by omega)]
          rw [hj]
          norm_num
      | succ j =>
          rw [List.getElem?_cons_succ] at hj
          rw [List.flatten_cons, List.getElem?_append_right (by omega)]
          have harith : 2 * (j + 1) + k - x.length = 2 * j + k := by omega
          rw [harith]
          exact ih j (fun y hy => hL y (List.mem_cons_of_mem x hy)) hj

theorem serializeMix_sampleVal (m : Nat → Int) (j : Nat) (hj : j < numSamplePairs)
    (h1 : -32768 ≤ m j) (h2 : m j ≤ 32767) :
    sampleVal (serializeMix m) j = m j := by
  have hlen : ∀ x ∈ (List.range numSamplePairs).map fun i => int16ToBytes (m i),
      x.length = 2 := by
    intro x hx
    rcases List.mem_map.mp hx with ⟨i, _, hxeq⟩
    rw [← hxeq]
    exact length_int16ToBytes _
  have hmap : ((List.range numSamplePairs).map fun i => int16ToBytes (m i))[j]?
      = some (int16ToBytes (m j)) := by
    rw [List.getElem?_map, List.getElem?_range hj]
    rfl
  have h0 := flatten_pair_get? _ j 0 _ hlen hmap (by norm_num)
  have hb1 := flatten_pair_get? _ j 1 _ hlen hmap (by norm_num)
  rw [Nat.add_zero] at h0
  rw [sampleVal, serializeMix, List.getD_eq_getElem?_getD, List.getD_eq_getElem?_getD,
    h0, hb1, ← List.getD_eq_getElem?_getD, ← List.getD_eq_getElem?_getD]
  exact toInt16_int16ToBytes (m j) h1 h2

theorem length_serializeMix (m : Nat → Int) :
    (serializeMix m).length = AUDIO_BUFFER_SIZE := by
  rw [serializeMix, List.length_flatten, List.map_map]
  have hconst : (List.length ∘ fun j => int16ToBytes (m j)) = fun _ => 2 :=
    funext fun j => length_int16ToBytes _
  rw [hconst, List.map_const', List.sum_const_nat, List.length_range]
  decide

theorem mixTick_eq_some (frames : List (List Nat))
    (hb : framesInBounds frames = true) :
    mixTick frames = some (serializeMix (mixAccum frames)) := by
  rw [mixTick, if_pos hb]

/-- A canonical-size frame whose first sample is `32767` (bytes `FF 7F`)
and whose remaining 1919 samples are zero. -/
def cexFrameA : List Nat := int16ToBytes 32767 ++ List.replicate 3838 0

/-- A canonical-size frame whose first sample is `-1` (bytes `FF FF`)
and whose remaining 1919 samples are zero. -/
def cexFrameC : List Nat := int16ToBytes (-1) ++ List.replicate 3838 0

/-- The all-zero canonical frame. -/
def zeroFrame : List Nat := List.replicate 3840 0

theorem length_cexFrameA : cexFrameA.length = 3840 := by
  rw [cexFrameA, List.length_append, List.length_replicate, length_int16ToBytes]

theorem length_cexFrameC : cexFrameC.length = 3840 := by
  rw [cexFrameC, List.length_append, List.length_replicate, length_int16ToBytes]

theorem length_zeroFrame : zeroFrame.length = 3840 := by
  rw [zeroFrame, List.length_replicate]

theorem framesInBounds_of_forall (frames : List (List Nat))
    (h : ∀ f ∈ frames, f.length = 3840) : framesInBounds frames = true := by
  rw [framesInBounds, List.all_eq_true]
  intro f hf
  rw [decide_eq_true_eq, h f hf]
  decide

/-- C1: the mixer reads bytes `0 .. 3839` of every inbox frame without any
bounds check (`short* src = (short*)&f.data[i]`, server.cpp lines 217-220),
so an inbox holding a 2-byte frame makes it read out of bounds (undefined
behaviour, modelled as `none`) instead of mixing the two available bytes and
zero-padding the rest as the claim states. -/
theorem mixTick_short_frame_oob : mixTick [[0, 0]] = none := rfl

/-- Claim C4 as stated: every output sample is in the signed 16-bit range,
and whenever the per-sample sum of all inputs leaves that range the output
sample equals the clamped boundary value. -/
def mixClampClaim : Prop :=
  ∀ frames out j, mixTick frames = some out → j < numSamplePairs →
    (-32768 ≤ sampleVal out j ∧ sampleVal out j ≤ 32767) ∧
    (32767 < (frames.map fun f => sampleVal f j).sum → sampleVal out j = 32767) ∧
    ((frames.map fun f => sampleVal f j).sum < -32768 → sampleVal out j = -32768)

/-- Counterexample to C4 as stated: mixing the three frames with first
samples `32767, 32767, -1` gives per-sample sum `65533 > 32767`, yet the
left-fold of the clamped addition yields `32766`, not the boundary `32767`
(the mixer clamps every intermediate step, so the folded result is not the
clamp of the total). -/
theorem mixClampClaim_false : ¬ mixClampClaim := by
  intro h
  have hb : framesInBounds [cexFrameA, cexFrameA, cexFrameC] = true := by
    apply framesInBounds_of_forall
    intro f hf
    fin_cases hf
    · exact length_cexFrameA
    · exact length_cexFrameA
    · exact length_cexFrameC
  have h0 := h _ _ 0 (mixTick_eq_some _ hb) (by decide)
  have hsum : 32767
      < ([cexFrameA, cexFrameA, cexFrameC].map fun f => sampleVal f 0).sum := by
    decide
  have heq := h0.2.1 hsum
  rw [serializeMix_sampleVal _ 0 (by decide) (mixAccum_range _ 0).1
    (mixAccum_range _ 0).2] at heq
  rw [mixAccum, mixAccum_apply] at heq
  exact absurd heq (by decide)

/-- C4 amended: every sample of a mixed output frame lies in
`[-32768, 32767]`, and each accumulation step clamps rather than wraps; in
particular for an inbox of exactly two frames, a per-sample sum outside the
range produces exactly the clamped boundary value.  (With three or more
frames the folded result can differ from the clamp of the total, as the
counterexample shows.) -/
theorem mixer_output_clamped (frames : List (List Nat)) (a b : List Nat) (j : Nat)
    (hf : framesInBounds frames = true) (hab : framesInBounds [a, b] = true)
    (hj : j < numSamplePairs) :
    (-32768 ≤ sampleVal ((mixTick frames).getD []) j ∧
      sampleVal ((mixTick frames).getD []) j ≤ 32767) ∧
    (32767 < sampleVal a j + sampleVal b j →
      sampleVal ((mixTick [a, b]).getD []) j = 32767) ∧
    (sampleVal a j + sampleVal b j < -32768 →
      sampleVal ((mixTick [a, b]).getD []) j = -32768) := by
  have hpair : mixAccum [a, b] j = satAdd (sampleVal a j) (sampleVal b j) := by
    rw [mixAccum, mixAccum_apply]
    simp only [List.foldl]
    rw [satAdd_zero_left _ (sampleVal_range a j).1 (sampleVal_range a j).2]
  refine ⟨?_, ?_, ?_⟩
  · rw [mixTick_eq_some frames hf]
    simp only [Option.getD_some]
    rw [serializeMix_sampleVal _ j hj (mixAccum_range _ j).1 (mixAccum_range _ j).2]
    exact mixAccum_range frames j
  · intro hgt
    rw [mixTick_eq_some _ hab]
    simp only [Option.getD_some]
    rw [serializeMix_sampleVal _ j hj (mixAccum_range _ j).1 (mixAccum_range _ j).2,
      hpair, satAdd_of_gt _ _ hgt]
  · intro hlt
    rw [mixTick_eq_some _ hab]
    simp only [Option.getD_some]
    rw [serializeMix_sampleVal _ j hj (mixAccum_range _ j).1 (mixAccum_range _ j).2,
      hpair, satAdd_of_lt _ _ hlt]

/-- Witness for the amended C4: the single all-zero frame mixes into range,
and two frames with first samples `32767` saturate sample 0 to `32767`. -/
theorem mixer_output_clamped_witness :
    (-32768 ≤ sampleVal ((mixTick [zeroFrame]).getD []) 0 ∧
      sampleVal ((mixTick [zeroFrame]).getD []) 0 ≤ 32767) ∧
    sampleVal ((mixTick [cexFrameA, cexFrameA]).getD []) 0 = 32767 := by
  have hzf : framesInBounds [zeroFrame] = true := by
    apply framesInBounds_of_forall
    intro f hf
    fin_cases hf
    exact length_zeroFrame
  have haa : framesInBounds [cexFrameA, cexFrameA] = true := by
    apply framesInBounds_of_forall
    intro f hf
    fin_cases hf
    · exact length_cexFrameA
    · exact length_cexFrameA
  refine ⟨(mixer_output_clamped [zeroFrame] cexFrameA cexFrameA 0
    hzf haa (by decide)).1, ?_⟩
  exact (mixer_output_clamped [zeroFrame] cexFrameA cexFrameA 0
    hzf haa (by decide)).2.1 (by decide)

/-- Claim C5 as stated: the mixed output of one tick does not depend on the
order in which the drained inbox frames are processed. -/
def mixOrderClaim : Prop :=
  ∀ fs gs : List (List Nat), fs.Perm gs → mixTick fs = mixTick gs

/-- Counterexample to C5: `satAdd` is commutative but not associative, so
the fold depends on the order.  First samples `32767, 32767, -1` mix to
`32766`, but the reordering `32767, -1, 32767` mixes to `32767`. -/
theorem mixOrderClaim_false : ¬ mixOrderClaim := by
  intro h
  have hperm : ([cexFrameA, cexFrameA, cexFrameC] : List (List Nat)).Perm
      [cexFrameA, cexFrameC, cexFrameA] :=
    List.Perm.cons _ (List.Perm.swap _ _ _)
  have heq := h _ _ hperm
  have hb1 : framesInBounds [cexFrameA, cexFrameA, cexFrameC] = true := by
    apply framesInBounds_of_forall
    intro f hf
    fin_cases hf
    · exact length_cexFrameA
    · exact length_cexFrameA
    · exact length_cexFrameC
  have hb2 : framesInBounds [cexFrameA, cexFrameC, cexFrameA] = true := by
    apply framesInBounds_of_forall
    intro f hf
    fin_cases hf
    · exact length_cexFrameA
    · exact length_cexFrameC
    · exact length_cexFrameA
  rw [mixTick_eq_some _ hb1, mixTick_eq_some _ hb2, Option.some.injEq] at heq
  have hs1 : sampleVal (serializeMix (mixAccum [cexFrameA, cexFrameA, cexFrameC])) 0
      = 32766 := by
    rw [serializeMix_sampleVal _ 0 (by decide) (mixAccum_range _ 0).1
      (mixAccum_range _ 0).2]
    rw [mixAccum, mixAccum_apply]
    decide
  have hs2 : sampleVal (serializeMix (mixAccum [cexFrameA, cexFrameC, cexFrameA])) 0
      = 32767 := by
    rw [serializeMix_sampleVal _ 0 (by decide) (mixAccum_range _ 0).1
      (mixAccum_range _ 0).2]
    rw [mixAccum, mixAccum_apply]
    decide
  rw [heq, hs2] at hs1
  exact absurd hs1 (by decide)

/-- C5 amended: mixing exactly two frames is commutative (saturation
commutes pairwise); general order-independence fails for three or more
frames because the clamped fold is not associative. -/
theorem mixTick_pair_comm (a b : List Nat) (hab : framesInBounds [a, b] = true) :
    mixTick [a, b] = mixTick [b, a] := by
  have hba : framesInBounds [b, a] = true := by
    simp only [framesInBounds, List.all_cons, List.all_nil, Bool.and_true,
      Bool.and_eq_true] at hab ⊢
    exact ⟨hab.2, hab.1⟩
  rw [mixTick_eq_some _ hab, mixTick_eq_some _ hba]
  have hfun : mixAccum [a, b] = mixAccum [b, a] := by
    funext j
    rw [mixAccum, mixAccum, mixAccum_apply, mixAccum_apply]
    simp only [List.foldl]
    rw [satAdd_zero_left _ (sampleVal_range a j).1 (sampleVal_range a j).2,
      satAdd_zero_left _ (sampleVal_range b j).1 (sampleVal_range b j).2,
      satAdd_comm]
  rw [hfun]

/-- Witness for the amended C5 at two concrete canonical frames. -/
theorem mixTick_pair_comm_witness :
    mixTick [cexFrameA, cexFrameC] = mixTick [cexFrameC, cexFrameA] :=
  mixTick_pair_comm cexFrameA cexFrameC (by
    apply framesInBounds_of_forall
    intro f hf
    fin_cases hf
    · exact length_cexFrameA
    · exact length_cexFrameC)

/-! ## Per-client send queue (server.cpp `ClientInfo`, mixer fan-out lines
233-250, `ClientSendThread` lines 126-156, `RemoveClient` lines 79-118)

Every mutation of a `ClientInfo`'s queue happens under its `qMutex`, so the
locked regions are modelled as atomic operations on a `SendQueue` value. -/

/-- A `ClientInfo`'s send queue with its backpressure counter
(`std::queue<std::shared_ptr<std::vector<char>>> q; size_t queuedFrames`). -/
structure SendQueue where
  q : List (List Nat)
  queuedFrames : Nat
deriving DecidableEq

/-- The mixer's backpressure loop (server.cpp lines 241-245):
`while (queuedFrames >= MAX_QUEUE_FRAMES && !q.empty()) { q.pop(); queuedFrames--; }`. -/
def dropLoop : List (List Nat) → Nat → List (List Nat) × Nat
  | [], c => ([], c)
  | f :: fs, c =>
      if MAX_QUEUE_FRAMES ≤ c then dropLoop fs (c - 1) else (f :: fs, c)

/-- Mixer enqueue under the queue lock (server.cpp lines 240-248):
drop-oldest, then `q.push(...)` and `queuedFrames++`. -/
def enqueueFrame (s : SendQueue) (f : List Nat) : SendQueue :=
  { q := (dropLoop s.q s.queuedFrames).1 ++ [f],
    queuedFrames := (dropLoop s.q s.queuedFrames).2 + 1 }

/-- Sender dequeue under the queue lock (`ClientSendThread` lines 139-142):
only reached when the wait predicate saw a non-empty queue, so an empty
queue is a no-op; otherwise pop the front and decrement the counter if
positive (`if (queuedFrames > 0) queuedFrames--`). -/
def dequeueFrame (s : SendQueue) : SendQueue :=
  match s.q with
  | [] => s
  | _ :: fs =>
      { q := fs,
        queuedFrames :=
          if 0 < s.queuedFrames then s.queuedFrames - 1 else s.queuedFrames }

/-- `RemoveClient`'s clearing of the queue under the lock (server.cpp lines
88-90): `while (!q.empty()) q.pop(); queuedFrames = 0;`. -/
def clearQueue (_s : SendQueue) : SendQueue := { q := [], queuedFrames := 0 }

/-- The three operations that touch a send queue under its lock. -/
inductive QueueOp where
  | enq (f : List Nat)
  | deq
  | clear

def applyOp (s : SendQueue) : QueueOp → SendQueue
  | .enq f => enqueueFrame s f
  | .deq => dequeueFrame s
  | .clear => clearQueue s

def applyOps (s : SendQueue) (ops : List QueueOp) : SendQueue :=
  ops.foldl applyOp s

/-- A fresh `ClientInfo`'s queue. -/
def emptyQueue : SendQueue := { q := [], queuedFrames := 0 }

/-- C3 invariant: bounded queue, counter in sync. -/
def QueueInv (s : SendQueue) : Prop :=
  s.q.length ≤ MAX_QUEUE_FRAMES ∧ s.queuedFrames = s.q.length

theorem dropLoop_spec (q : List (List Nat)) : ∀ c : Nat, c = q.length →
    c ≤ MAX_QUEUE_FRAMES →
    (dropLoop q c).2 = (dropLoop q c).1.length ∧
      (dropLoop q c).1.length < MAX_QUEUE_FRAMES := by
  induction q with
  | nil =>
      intro c hc _
      subst hc
      exact ⟨rfl, by decide⟩
  | cons f fs ih =>
      intro c hc hle
      rw [List.length_cons] at hc
      by_cases hge : MAX_QUEUE_FRAMES ≤ c
      · simp only [dropLoop]
        rw [if_pos hge]
        exact ih (c - 1) (by omega) (by omega)
      · simp only [dropLoop]
        rw [if_neg hge]
        refine ⟨by rw [hc, List.length_cons], ?_⟩
        rw [List.length_cons]
        omega

theorem applyOp_preserves_QueueInv (s : SendQueue) (op : QueueOp)
    (h : QueueInv s) : QueueInv (applyOp s op) := by
  rcases h with ⟨h1, h2⟩
  cases op with
  | enq f =>
      have hs := dropLoop_spec s.q s.queuedFrames h2 (by omega)
      simp only [applyOp, enqueueFrame, QueueInv, List.length_append,
        List.length_cons, List.length_nil]
      omega
  | deq =>
      cases hq : s.q with
      | nil =>
          simp only [applyOp, dequeueFrame, hq]
          exact ⟨h1, h2⟩
      | cons x xs =>
          rw [hq] at h1 h2
          rw [List.length_cons] at h1 h2
          simp only [applyOp, dequeueFrame, hq, QueueInv]
          refine ⟨by omega, ?_⟩
          rw [if_pos (by omega)]
          omega
  | clear =>
      exact ⟨by simp [applyOp, clearQueue, MAX_QUEUE_FRAMES], rfl⟩

/-- C3: every sequence of locked queue operations starting from a fresh
entry keeps the queue at no more than `MAX_QUEUE_FRAMES = 50` frames with
`queuedFrames` equal to the queue length, and each single operation (mixer
enqueue with drop-oldest, sender dequeue, removal's clear) preserves that
invariant from any state satisfying it. -/
theorem sendQueue_invariant :
    (∀ ops : List QueueOp, QueueInv (applyOps emptyQueue ops)) ∧
    (∀ (s : SendQueue) (op : QueueOp), QueueInv s → QueueInv (applyOp s op)) := by
  have hrun : ∀ (l : List QueueOp) (s : SendQueue),
      QueueInv s → QueueInv (applyOps s l) := by
    intro l
    induction l with
    | nil => intro s hs; exact hs
    | cons op rest ih =>
        intro s hs
        exact ih _ (applyOp_preserves_QueueInv s op hs)
  exact ⟨fun ops => hrun ops emptyQueue ⟨by decide, rfl⟩,
    applyOp_preserves_QueueInv⟩

/-- Witness for C3: a concrete operation sequence from the fresh queue, and
one preservation step from a concrete invariant-satisfying state. -/
theorem sendQueue_invariant_witness :
    QueueInv (applyOps emptyQueue
      [QueueOp.enq [1], QueueOp.enq [2], QueueOp.deq, QueueOp.clear]) ∧
    QueueInv (applyOp { q := [[7]], queuedFrames := 1 } (QueueOp.enq [3])) :=
  ⟨sendQueue_invariant.1 _,
    sendQueue_invariant.2 { q := [[7]], queuedFrames := 1 } (QueueOp.enq [3])
      ⟨by decide, rfl⟩⟩

/-! ## `RemoveClient` (server.cpp lines 79-118)

`RemoveClient` is called from the reader thread on read failure, would be
called from the sender path, and is what the shutdown path was meant to
invoke.  All callers run the same body, modelled as one state transformer:
`active.exchange(false)` hands exactly one caller `true`; only that caller
clears the queue, wakes the sender, shuts down and closes the socket, joins
the sender and erases the entry from `gClients`. -/

/-- One `ClientInfo` as far as `RemoveClient` observes and mutates it. -/
structure Entry where
  active : Bool
  sendq : SendQueue
  sockOpen : Bool
deriving DecidableEq

/-- The server state `RemoveClient` touches: the `gClients` registry
(entries named by an id) and each entry's contents. -/
structure ServerSt where
  clients : List Nat
  entry : Nat → Entry

/-- `RemoveClient(cli)` (server.cpp lines 79-118).  The `exchange(false)`
guard makes every call after the first a no-op; the winning caller clears
the queue and counter, closes the socket and erases the entry from the
registry (`std::remove` erases every element equal to `cli`). -/
def RemoveClient (c : Nat) (s : ServerSt) : ServerSt :=
  if (s.entry c).active then
    { clients := s.clients.filter fun x => x != c,
      entry := Function.update s.entry c
        { active := false, sendq := clearQueue (s.entry c).sendq,
          sockOpen := false } }
  else s

/-- C7: `RemoveClient` is idempotent — a second call (from any thread) finds
the active flag already false and changes nothing, so two calls equal one;
moreover any call on an already-deactivated entry is a no-op. -/
theorem RemoveClient_idem (s : ServerSt) (c : Nat) :
    RemoveClient c (RemoveClient c s) = RemoveClient c s ∧
    ((s.entry c).active = false → RemoveClient c s = s) := by
  have hnoop : ∀ t : ServerSt, (t.entry c).active = false → RemoveClient c t = t := by
    intro t ht
    simp only [RemoveClient]
    rw [if_neg (by rw [ht]; exact Bool.false_ne_true)]
  constructor
  · by_cases h : (s.entry c).active
    · have h2 : ((RemoveClient c s).entry c).active = false := by
        simp only [RemoveClient, if_pos h, Function.update_same]
      exact hnoop _ h2
    · have hs : RemoveClient c s = s := by
        refine hnoop s ?_
        cases hb : (s.entry c).active with
        | false => rfl
        | true => exact absurd hb h
      rw [hs]
      exact hs
  · intro h
    exact hnoop s h

/-- A registered client whose entry is still live. -/
def liveClientSt : ServerSt :=
  { clients := [0],
    entry := fun _ => { active := true, sendq := emptyQueue, sockOpen := true } }

/-- A state whose entry 0 is already deactivated. -/
def deadClientSt : ServerSt :=
  { clients := [],
    entry := fun _ => { active := false, sendq := emptyQueue, sockOpen := false } }

/-- Witness for C7 at concrete states: double removal of a live client
equals single removal, and removing an already-dead client is a no-op. -/
theorem RemoveClient_idem_witness :
    RemoveClient 0 (RemoveClient 0 liveClientSt) = RemoveClient 0 liveClientSt ∧
    RemoveClient 0 deadClientSt = deadClientSt :=
  ⟨(RemoveClient_idem liveClientSt 0).1, (RemoveClient_idem deadClientSt 0).2 rfl⟩

/-! ## The mixer-fanout / RemoveClient interleaving (server.cpp lines
233-250 and 79-100)

For one entry, one mixer tick's fan-out and one concurrent `RemoveClient`
call decompose into the atomic actions the source actually has:

* `mixSkip` / `mixPass` — the fan-out's `if (!cli->active) continue;`, a
  single atomic load performed *outside* the entry's `qMutex`;
* `mixPush` — the fan-out's locked region (drop-oldest, push, notify);
* `remFlip` — `RemoveClient`'s `active.exchange(false)`, an atomic RMW,
  also taken outside the `qMutex`;
* `remNoop` — the early return when `exchange` yields `false`;
* `remClear` — `RemoveClient`'s locked region that empties the queue.

The mixer holds `gClientMutex` during the whole fan-out, but `RemoveClient`
flips the flag and clears the queue *before* it ever takes `gClientMutex`,
so these actions interleave freely with the fan-out. -/

/-- Mixer program counter for one entry of one fan-out pass. -/
inductive MixPc where
  | beforeCheck
  | passedCheck
  | mixDone
deriving DecidableEq

/-- `RemoveClient` program counter. -/
inductive RemPc where
  | remIdle
  | tearing
  | remDone
deriving DecidableEq

/-- One entry's state plus the two threads' positions. -/
structure RaceSt where
  active : Bool
  sq : SendQueue
  mpc : MixPc
  rpc : RemPc
deriving DecidableEq

/-- The shared mixed frame the fan-out pushes (contents irrelevant here). -/
def mixedFrame : List Nat := zeroFrame

/-- Interleaved atomic actions of the fan-out and of `RemoveClient`. -/
inductive RaceStep : RaceSt → RaceSt → Prop where
  | mixSkip (s : RaceSt) (h1 : s.mpc = MixPc.beforeCheck)
      (h2 : s.active = false) : RaceStep s { s with mpc := MixPc.mixDone }
  | mixPass (s : RaceSt) (h1 : s.mpc = MixPc.beforeCheck)
      (h2 : s.active = true) : RaceStep s { s with mpc := MixPc.passedCheck }
  | mixPush (s : RaceSt) (h1 : s.mpc = MixPc.passedCheck) :
      RaceStep s { s with sq := enqueueFrame s.sq mixedFrame, mpc := MixPc.mixDone }
  | remFlip (s : RaceSt) (h1 : s.rpc = RemPc.remIdle)
      (h2 : s.active = true) :
      RaceStep s { s with active := false, rpc := RemPc.tearing }
  | remNoop (s : RaceSt) (h1 : s.rpc = RemPc.remIdle)
      (h2 : s.active = false) : RaceStep s { s with rpc := RemPc.remDone }
  | remClear (s : RaceSt) (h1 : s.rpc = RemPc.tearing) :
      RaceStep s { s with sq := clearQueue s.sq, rpc := RemPc.remDone }

/-- Fresh entry, fan-out and removal both pending. -/
def raceInit : RaceSt :=
  { active := true, sq := emptyQueue, mpc := MixPc.beforeCheck,
    rpc := RemPc.remIdle }

/-- States reachable from `raceInit` by interleaving the two threads. -/
inductive RaceReach : RaceSt → Prop where
  | init : RaceReach raceInit
  | step (s t : RaceSt) : RaceReach s → RaceStep s t → RaceReach t

/-- Claim C8 as stated: from any reachable state whose entry is already
deactivated, no step grows the entry's send queue. -/
def deactivatedNoPushClaim : Prop :=
  ∀ s t : RaceSt, RaceReach s → RaceStep s t → s.active = false →
    t.sq.q.length ≤ s.sq.q.length

/-- Reachable race state: the mixer has passed its active check while the
entry was still live, and `RemoveClient` has since flipped the flag and
cleared the queue. -/
def raceMidSt : RaceSt :=
  { active := false, sq := emptyQueue, mpc := MixPc.passedCheck,
    rpc := RemPc.remDone }

/-- Counterexample to C8 as stated: the fan-out's active check and its
locked push are separate atomic actions, so `RemoveClient` can deactivate
the entry and clear its queue between them; the pending `mixPush` then
lands one frame on the queue of a deactivated entry. -/
theorem deactivatedNoPushClaim_false : ¬ deactivatedNoPushClaim := by
  intro h
  have r1 : RaceReach { active := true, sq := emptyQueue, mpc := MixPc.passedCheck, rpc := RemPc.remIdle } :=
    RaceReach.step _ _ RaceReach.init (RaceStep.mixPass raceInit rfl rfl)
  have r2 : RaceReach { active := false, sq := emptyQueue, mpc := MixPc.passedCheck, rpc := RemPc.tearing } :=
    RaceReach.step _ _ r1 (RaceStep.remFlip _ rfl rfl)
  have r3 : RaceReach raceMidSt :=
    RaceReach.step _ _ r2 (RaceStep.remClear _ rfl)
  have hstep : RaceStep raceMidSt { raceMidSt with sq := enqueueFrame raceMidSt.sq mixedFrame, mpc := MixPc.mixDone } :=
    RaceStep.mixPush raceMidSt rfl
  have hc := h _ _ r3 hstep rfl
  exact absurd hc (by decide)

/-- C8 amended safety predicate: the entry is deactivated and the mixer is
not sitting between its passed active check and the pending push. -/
def RaceSafe (s : RaceSt) : Prop :=
  s.active = false ∧ s.mpc ≠ MixPc.passedCheck

/-- C8 amended: once the entry is deactivated and the mixer is not already
past its active check for this entry, the queue never grows again under any
further interleaving — the deactivated entry accepts no new frames.  (The
original unconditional claim fails only in the window between the mixer's
check and its push, as the counterexample shows.) -/
theorem deactivated_no_push (s t : RaceSt) (hs : RaceSafe s)
    (hst : Relation.ReflTransGen RaceStep s t) :
    RaceSafe t ∧ t.sq.q.length ≤ s.sq.q.length := by
  induction hst with
  | refl => exact ⟨hs, le_refl _⟩
  | tail hab hbc ih =>
      obtain ⟨hsafe, hlen⟩ := ih
      cases hbc with
      | mixSkip h1 h2 =>
          exact ⟨⟨hsafe.1, by intro hx; cases hx⟩, hlen⟩
      | mixPass h1 h2 =>
          rw [hsafe.1] at h2
          exact absurd h2 (by decide)
      | mixPush h1 =>
          exact absurd h1 hsafe.2
      | remFlip h1 h2 =>
          rw [hsafe.1] at h2
          exact absurd h2 (by decide)
      | remNoop h1 h2 =>
          exact ⟨⟨hsafe.1, hsafe.2⟩, hlen⟩
      | remClear h1 =>
          exact ⟨⟨hsafe.1, hsafe.2⟩, le_trans (Nat.zero_le _) hlen⟩

/-- A concrete deactivated, check-free race state. -/
def raceDoneSt : RaceSt :=
  { active := false, sq := emptyQueue, mpc := MixPc.mixDone, rpc := RemPc.remDone }

/-- Witness for the amended C8 at `raceDoneSt`. -/
theorem deactivated_no_push_witness :
    RaceSafe raceDoneSt ∧ raceDoneSt.sq.q.length ≤ raceDoneSt.sq.q.length :=
  deactivated_no_push _ _ ⟨rfl, by decide⟩ Relation.ReflTransGen.refl

/-! ## Shutdown path of `main` (src/Server/server.cpp lines 294-419)

`SignalHandler` sets `gRunning = false`; the accept loop then exits.  In the
current server the block that snapshots `gClients` and calls `RemoveClient`
on every entry ("7. 종료 처리", lines 402-413) is commented out — it is live
in the previous revision kept in the repository (src/unnamed/part_001 lines
378-389) and is what both the spec and main's own header comment
("4. 종료 시 모든 소켓 정리") describe — so after the loop the code only
joins the mixer, closes the listening socket and returns 0. -/

/-- The observable state `main`'s shutdown manipulates. -/
structure MainSt where
  srv : ServerSt
  running : Bool
  mixerJoined : Bool
  listenerOpen : Bool

/-- `SignalHandler` (server.cpp lines 294-298). -/
def SignalHandler (s : MainSt) : MainSt := { s with running := false }

/-- What `main` executes after the accept loop observes `gRunning == false`
(server.cpp lines 402-419): the per-entry `RemoveClient` block is commented
out, so the registry and every entry are untouched; `mixer.join()`,
`closesocket(listenSock)`, `return 0`. -/
def mainShutdown (s : MainSt) : MainSt × Nat :=
  ({ s with mixerJoined := true, listenerOpen := false }, 0)

/-- One connected, still-active client at the moment SIGINT arrives. -/
def sigintOneClientSt : MainSt :=
  { srv := liveClientSt, running := true, mixerJoined := false,
    listenerOpen := true }

/-- C9 (code-bug evidence): after the termination signal, the code does set
the shutdown flag, join the mixer, close the listener and exit 0 — but it
never invokes `RemoveClient` on the remaining registry entries, because that
block is commented out: the client is still registered, still active, and
its socket is still open, unlike the state `RemoveClient` would have
produced. -/
theorem mainShutdown_leaves_clients :
    (mainShutdown (SignalHandler sigintOneClientSt)).2 = 0 ∧
    (mainShutdown (SignalHandler sigintOneClientSt)).1.running = false ∧
    (mainShutdown (SignalHandler sigintOneClientSt)).1.mixerJoined = true ∧
    (mainShutdown (SignalHandler sigintOneClientSt)).1.listenerOpen = false ∧
    (mainShutdown (SignalHandler sigintOneClientSt)).1.srv.clients = [0] ∧
    ((mainShutdown (SignalHandler sigintOneClientSt)).1.srv.entry 0).active = true ∧
    ((mainShutdown (SignalHandler sigintOneClientSt)).1.srv.entry 0).sockOpen = true ∧
    (RemoveClient 0 (SignalHandler sigintOneClientSt).srv).clients ≠
      (mainShutdown (SignalHandler sigintOneClientSt)).1.srv.clients := by
  refine ⟨rfl, rfl, rfl, rfl, rfl, rfl, rfl, ?_⟩
  intro h
  exact absurd h (by decide)

end GroupAudio
